import Mathlib

/-!
Verification of the heterokaryon-analysis data pipeline
(`src/data_cleaning.py`, `src/features.py`).

The tables manipulated by the pipeline are shallowly embedded as Lean
lists of row structures.  Cell values of the `Type` column are either
numeric codes or string labels (`CellVal`), mirroring the pandas object
column.  Float columns that can hold NaN are embedded as `Option ℚ`
(`none` = NaN/null), and the `Corrected Mean` column, which can also
hold signed infinities produced by division by zero, is embedded as
`FVal`.  Operations that can raise a pandas exception return `Except`.
-/

/-- Value of the `Type` cell: a numeric code or one of the string labels
substituted by `_rename_type_values`. -/
inductive CellVal where
  | num (q : ℚ)
  | str (s : String)
deriving DecidableEq

/-- Python `==` between a `Type` cell and a numeric literal: a string
label never equals a number. -/
def CellVal.eqNum : CellVal → ℚ → Bool
  | .num q, x => decide (q = x)
  | .str _, _ => false

/-- Whether a cell holds a numeric value. -/
def CellVal.isNum : CellVal → Bool
  | .num _ => true
  | .str _ => false

/-- Float value as produced by numpy arithmetic: finite, signed
infinity, or NaN (which also encodes pandas null). -/
inductive FVal where
  | fin (q : ℚ)
  | inf (pos : Bool)
  | nan
deriving DecidableEq

/-- numpy float addition on the embedded values (NaN propagates,
opposite infinities give NaN). -/
def fAdd : FVal → FVal → FVal
  | .fin a, .fin b => .fin (a + b)
  | .fin _, .inf p => .inf p
  | .inf p, .fin _ => .inf p
  | .inf p, .inf q => if p = q then .inf p else .nan
  | _, _ => .nan

/-- numpy float division on the embedded values: a nonzero finite value
divided by zero gives a signed infinity, `0/0` and any NaN operand give
NaN. -/
def fDiv : FVal → FVal → FVal
  | .fin a, .fin b =>
      if b = 0 then (if a = 0 then .nan else .inf (decide (0 < a)))
      else .fin (a / b)
  | .fin _, .inf _ => .fin 0
  | .inf p, .fin b => if b < 0 then .inf (!p) else .inf p
  | _, _ => .nan

/-- View an `Option ℚ` column cell (`none` = NaN) as a float value. -/
def optF : Option ℚ → FVal
  | some q => .fin q
  | none => .nan

/-- Raw row of the input CSV after blank-row removal: numeric measurement
columns and the `Type` cell.  Fully blank separator rows are not
representable here, so `_remove_blank_rows` is the identity on the
tables modelled in this file. -/
structure RRow where
  type_ : CellVal
  area : ℚ
  mean : ℚ
  intden : ℚ
  label : Option String
deriving DecidableEq

/-- Row after `_add_block_id` (and possibly `_rename_type_values`). -/
structure CRow where
  blockId : Nat
  type_ : CellVal
  area : ℚ
  mean : ℚ
  intden : ℚ
  label : Option String
deriving DecidableEq

/-- Row after `_calc_corrected_integrated_density`. -/
structure DRow where
  blockId : Nat
  type_ : CellVal
  area : ℚ
  mean : ℚ
  intden : ℚ
  cid : Option ℚ
  label : Option String
deriving DecidableEq

/-- Row after `_calc_corrected_mean` (full cleaned row). -/
structure MRow where
  blockId : Nat
  type_ : CellVal
  area : ℚ
  mean : ℚ
  intden : ℚ
  cid : Option ℚ
  cmean : FVal
  label : Option String
deriving DecidableEq

/-- Default row used with `List.getD`. -/
def dCRow : CRow := ⟨0, .num 0, 0, 0, 0, none⟩

/-- Default row used with `List.getD`. -/
def dDRow : DRow := ⟨0, .num 0, 0, 0, 0, none, none⟩

/-- Default row used with `List.getD`. -/
def dMRow : MRow := ⟨0, .num 0, 0, 0, 0, none, .nan, none⟩

/-! ## Block segmentation (`_add_block_id`) -/

/-- Loop body of `_add_block_id` on the sequence of `Type` cells:
`prev` is the previous row's `Type`, `b` the current block counter. -/
def blockIdsAux (prev : CellVal) (b : Nat) : List CellVal → List Nat
  | [] => []
  | t :: ts =>
      let b' := if t.eqNum 1 && prev.eqNum 4 then b + 1 else b
      b' :: blockIdsAux t b' ts

/-- Block numbers assigned by `_add_block_id` to a sequence of `Type`
cells: the first row always gets block 1. -/
def addBlockIdsPure : List CellVal → List Nat
  | [] => []
  | t :: ts => 1 :: blockIdsAux t 1 ts

/-- Row-level loop of `_add_block_id`. -/
def addBlockAux (prev : CellVal) (b : Nat) : List RRow → List CRow
  | [] => []
  | r :: rs =>
      let b' := if r.type_.eqNum 1 && prev.eqNum 4 then b + 1 else b
      ⟨b', r.type_, r.area, r.mean, r.intden, r.label⟩ :: addBlockAux r.type_ b' rs

/-- Embedding of `_add_block_id`: insert the `Block_ID` column, starting at block 1
and incrementing exactly when a `Type == 1` row directly follows a
`Type == 4` row. -/
def _add_block_id : List RRow → List CRow
  | [] => []
  | r :: rs => ⟨1, r.type_, r.area, r.mean, r.intden, r.label⟩ :: addBlockAux r.type_ 1 rs

/-- The `Type` column of a raw table. -/
def typesOf (raws : List RRow) : List CellVal := raws.map (·.type_)

/-- The `Block_ID` column of a segmented table. -/
def blockIdsOf (rows : List CRow) : List Nat := rows.map (·.blockId)

/-- Number of positions where a `Type == 4` row is immediately followed
by a `Type == 1` row. -/
def countTransitions : List CellVal → Nat
  | t :: u :: ts => (if u.eqNum 1 && t.eqNum 4 then 1 else 0) + countTransitions (u :: ts)
  | _ => 0

/-! ## Type labeling (`_rename_type_values`) -/

/-- The four sequential `df.loc[df.Type == k, 'Type'] = label`
assignments of `_rename_type_values`, applied to one cell. -/
def renameVal (v : CellVal) : CellVal :=
  let v1 := if v.eqNum 1 then .str "Background" else v
  let v2 := if v1.eqNum 2 then .str "ES" else v1
  let v3 := if v2.eqNum 3 then .str "MEF" else v2
  if v3.eqNum 4 then .str "Unfused ES" else v3

/-- Embedding of `_rename_type_values`: replace numeric type codes by their string
labels; only the `Type` column is touched. -/
def _rename_type_values (rows : List CRow) : List CRow :=
  rows.map (fun r => { r with type_ := renameVal r.type_ })

/-- Embedding of `clean_data` on an already-read table: blank-row removal (identity
on the blank-free tables modelled here), then `_add_block_id`, then
`_rename_type_values`. -/
def clean_data (raws : List RRow) : List CRow :=
  _rename_type_values (_add_block_id raws)

/-! ## Background correction (`_calc_corrected_integrated_density`) -/

/-- Predicate for `df["Type"] == "Background"`. -/
def isBg (r : CRow) : Bool := decide (r.type_ = CellVal.str "Background")

/-- The `bg_mean` series: `(Block_ID, Mean)` of every Background row,
in table order (`set_index("Block_ID")["Mean"]`). -/
def bgSeries (rows : List CRow) : List (Nat × ℚ) :=
  (rows.filter isBg).map (fun r => (r.blockId, r.mean))

/-- A `Series.map` lookup against a series with unique index: first entry
with the given key. -/
def seriesLookup (s : List (Nat × ℚ)) (k : Nat) : Option ℚ :=
  (s.find? (fun p => decide (p.1 = k))).map Prod.snd

/-- Embedding of `_calc_corrected_integrated_density`: map the per-block background
mean onto every row, set `Corrected Integrated Density` to
`IntDen - Area * Background_Mean` (NaN when the block has no background
row), and force Background rows to null.  `Series.map` raises
`InvalidIndexError` when the background series has a duplicate index,
i.e. when some block holds two or more Background rows. -/
def _calc_corrected_integrated_density (rows : List CRow) :
    Except String (List DRow) :=
  let bg := bgSeries rows
  if ((bg.map Prod.fst).Nodup) then
    .ok (rows.map (fun r =>
      let bgm := seriesLookup bg r.blockId
      let cid0 := bgm.map (fun m => r.intden - r.area * m)
      { blockId := r.blockId, type_ := r.type_, area := r.area, mean := r.mean,
        intden := r.intden,
        cid := if r.type_ = CellVal.str "Background" then none else cid0,
        label := r.label }))
  else
    .error "InvalidIndexError: Reindexing only valid with uniquely valued Index objects"

/-- Embedding of `_calc_corrected_mean`: `Corrected Mean = Corrected Integrated
Density / Area` with numpy float division semantics. -/
def _calc_corrected_mean (rows : List DRow) : List MRow :=
  rows.map (fun r =>
    { blockId := r.blockId, type_ := r.type_, area := r.area, mean := r.mean,
      intden := r.intden, cid := r.cid,
      cmean := fDiv (optF r.cid) (.fin r.area),
      label := r.label })

/-- Value-level part of `prepare_data`: clean, then the two corrected
columns (the column-reorder step only permutes columns and is modelled
separately on column-name lists). -/
def prepare_rows (raws : List RRow) : Except String (List MRow) :=
  (_calc_corrected_integrated_density (clean_data raws)).map _calc_corrected_mean

/-! ## Feature aggregation (`create_feature_dataframe`, `features.py`) -/

/-- Embedding of `pd.unique`: distinct values in first-seen order. -/
def pdUnique : List Nat → List Nat
  | [] => []
  | x :: xs => x :: pdUnique (xs.filter (fun y => decide (y ≠ x)))
termination_by l => l.length
decreasing_by
  exact Nat.lt_succ_of_le (List.length_filter_le _ _)

/-- Predicate for `main_df["Type"] != "Background"`. -/
def notBg (r : MRow) : Bool := !(decide (r.type_ = CellVal.str "Background"))

/-- The per-block skeleton built first by `create_feature_dataframe`:
`feature_df["Block_ID"] = main_df["Block_ID"].unique()`. -/
def featureSkeleton (main : List MRow) : List Nat :=
  pdUnique (main.map (·.blockId))

/-- A `set_index`-style lookup used by the pivot cells and the feature
functions: the row of the given type in the given block (unique when the
pivot's duplicate check has passed). -/
def typedLookup (base : List MRow) (ty : String) (b : Nat) : Option MRow :=
  (base.filter (fun r => decide (r.type_ = CellVal.str ty))).find?
    (fun r => decide (r.blockId = b))

/-- Rows with `Type` in `{ES, MEF}` of one block, as grouped by the
`groupby("Block_ID")` of `calc_total_area` / `calc_total_Oct4_...`. -/
def esmefRows (main : List MRow) (b : Nat) : List MRow :=
  main.filter (fun r =>
    (decide (r.type_ = CellVal.str "ES") || decide (r.type_ = CellVal.str "MEF"))
      && decide (r.blockId = b))

/-- Embedding of `groupby(...)["Area"].sum()` over one group (no nulls in `Area`). -/
def sumAreas (l : List MRow) : ℚ := l.foldr (fun r a => r.area + a) 0

/-- Embedding of `groupby(...)["Corrected Integrated Density"].sum()` over one group:
pandas sum skips NaN, and a group of only-NaN values sums to 0. -/
def sumCids (l : List MRow) : ℚ := l.foldr (fun r a => r.cid.getD 0 + a) 0

/-- The `calc_total_area` cell for one block: the mapped groupby sum, NaN
when the block has no ES/MEF row at all. -/
def calc_total_area (main : List MRow) (b : Nat) : FVal :=
  let g := esmefRows main b
  if g = [] then .nan else .fin (sumAreas g)

/-- The `calc_total_Oct4_heterokaryon_CID` cell for one block. -/
def calc_total_oct4 (main : List MRow) (b : Nat) : FVal :=
  let g := esmefRows main b
  if g = [] then .nan else .fin (sumCids g)

/-- The `Corrected Integrated Density` of the block's `Unfused ES` row,
as mapped by `calc_total_HET_single_ES_CID` (NaN when absent). -/
def unfusedCid (main : List MRow) (b : Nat) : FVal :=
  match typedLookup main "Unfused ES" b with
  | some r => optF r.cid
  | none => .nan

/-- The `Corrected Mean` of the block's row of the given type, as mapped
by `calc_mean_Oct4_heterokaryon_concentration_ratio_HETS_single`. -/
def cmOf (main : List MRow) (ty : String) (b : Nat) : FVal :=
  match typedLookup main ty b with
  | some r => r.cmean
  | none => .nan

/-- The `(es + mef) / unfused` cell of
`calc_mean_Oct4_heterokaryon_concentration_ratio_HETS_single`. -/
def calc_mean_oct4 (main : List MRow) (b : Nat) : FVal :=
  fDiv (fAdd (cmOf main "ES" b) (cmOf main "MEF" b)) (cmOf main "Unfused ES" b)

/-- One row of the feature table: `Block_ID`, the six pivot columns
`{Corrected Integrated Density, Corrected Mean} × {ES, MEF, Unfused ES}`
(the pivot creates one column per `Type` value present; the cleaned
tables modelled here use the four standard labels), and the four
registered feature columns in registration order. -/
structure FRow where
  blockId : Nat
  cidES : FVal
  cidMEF : FVal
  cidUES : FVal
  cmES : FVal
  cmMEF : FVal
  cmUES : FVal
  totalArea : FVal
  totalOct4 : FVal
  hetSingle : FVal
  meanOct4 : FVal
deriving DecidableEq

/-- Build the merged feature row for one block id of the pivot index:
pivot cells from the non-Background rows, then the four registered
feature functions applied in registration order (`Total Area`,
`Total Oct4 in Heterokaryon (CID)`, `Total HET:Single ES (CID)`,
`Mean Oct4 Concentration Ratio in HETS:Single`). -/
def buildFeatureRow (aux main : List MRow) (b : Nat) : FRow :=
  let cidE := optF ((typedLookup aux "ES" b).bind (·.cid))
  let cidM := optF ((typedLookup aux "MEF" b).bind (·.cid))
  let cidU := optF ((typedLookup aux "Unfused ES" b).bind (·.cid))
  let cmE := match typedLookup aux "ES" b with | some r => r.cmean | none => .nan
  let cmM := match typedLookup aux "MEF" b with | some r => r.cmean | none => .nan
  let cmU := match typedLookup aux "Unfused ES" b with | some r => r.cmean | none => .nan
  let ta := calc_total_area main b
  let to4 := calc_total_oct4 main b
  let het := fDiv to4 (unfusedCid main b)
  let mo := calc_mean_oct4 main b
  ⟨b, cidE, cidM, cidU, cmE, cmM, cmU, ta, to4, het, mo⟩

/-- Embedding of `create_feature_dataframe` on an in-memory cleaned table.  The
skeleton `featureSkeleton main` is built first, but the code then runs
`pivoted_df.merge(feature_df, on="Block_ID", how="left")` with the pivot
as the left table, so the output rows are exactly the pivot's index:
the sorted distinct block ids of the non-Background rows.  `pivot`
raises `ValueError` when some `(Block_ID, Type)` pair occurs twice among
the non-Background rows. -/
def create_feature_rows (main : List MRow) : Except String (List FRow) :=
  let aux := main.filter notBg
  if ((aux.map (fun r => (r.blockId, r.type_))).Nodup) then
    let pidx := List.insertionSort (· ≤ ·) (pdUnique (aux.map (·.blockId)))
    .ok (pidx.map (buildFeatureRow aux main))
  else
    .error "ValueError: Index contains duplicate entries, cannot reshape"

/-! ## Column order of `prepare_data` -/

/-- Embedding of `df[req]` column selection: raises `KeyError` when a requested
column is absent. -/
def selectCols (cols req : List String) : Except String (List String) :=
  if req.all (fun c => decide (c ∈ cols)) then .ok req else .error "KeyError"

/-- Column order produced by `prepare_data` from the raw column list:
`clean_data` inserts `Block_ID` first, the corrector appends (and drops)
`Background_Mean` then appends the two corrected columns, and the two
reorder selections put `Label` last and `Block_ID` first. -/
def prepare_cols (rawCols : List String) : Except String (List String) := do
  let c0 := "Block_ID" :: rawCols
    ++ ["Corrected Integrated Density", "Corrected Mean"]
  let c1 ← selectCols c0 (c0.filter (fun c => decide (c ≠ "Label")) ++ ["Label"])
  selectCols c1 ("Block_ID" :: c1.filter (fun c => decide (c ≠ "Block_ID")))

/-! ## Feature registry (`features.py`) -/

/-- Heap-of-dicts state for the registry module: address 0 holds
`_FEATURE_REGISTRY`; further addresses hold dicts returned by
`get_all_features`.  A Python dict is an insertion-ordered association
list. -/
structure RegState (α : Type) where
  heap : List (List (String × α))

/-- Python dict assignment `d[k] = v`: replace the entry in place when
the key exists, append a new entry otherwise (insertion order kept). -/
def dictInsert {α : Type} : List (String × α) → String → α → List (String × α)
  | [], k, v => [(k, v)]
  | p :: d, k, v => if p.1 = k then (k, v) :: d else p :: dictInsert d k v

/-- Python dict read `d.get(k)`. -/
def dictGet {α : Type} (d : List (String × α)) (k : String) : Option α :=
  (d.find? (fun p => decide (p.1 = k))).map Prod.snd

/-- The dict stored at an address. -/
def readDict {α : Type} (s : RegState α) (addr : Nat) : List (String × α) :=
  s.heap.getD addr []

/-- Embedding of `register_feature(name)(func)`: `_FEATURE_REGISTRY[name] = func`. -/
def register_feature {α : Type} (s : RegState α) (k : String) (v : α) : RegState α :=
  ⟨s.heap.set 0 (dictInsert (readDict s 0) k v)⟩

/-- Embedding of `get_all_features()`: allocate and return `_FEATURE_REGISTRY.copy()`
as a fresh dict at a fresh address. -/
def get_all_features {α : Type} (s : RegState α) : RegState α × Nat :=
  (⟨s.heap ++ [readDict s 0]⟩, s.heap.length)

/-- In-place mutation `d[k] = v` of the dict at `addr` (what a caller
may do to the mapping returned by `get_all_features`). -/
def mutateDict {α : Type} (s : RegState α) (addr : Nat) (k : String) (v : α) :
    RegState α :=
  ⟨s.heap.set addr (dictInsert (readDict s addr) k v)⟩

/-! ## Spec-side mapping and concrete tables -/

/-- Modelled from the spec's Type Labeler table (claim C8 wording): code
1→`Background`, 2→`ES`, 3→`MEF`, 4→`Unfused ES`, any other value passes
through unchanged.  Compared against `_rename_type_values`. -/
def typeLabelSpec (v : CellVal) : CellVal :=
  if v.eqNum 1 then .str "Background"
  else if v.eqNum 2 then .str "ES"
  else if v.eqNum 3 then .str "MEF"
  else if v.eqNum 4 then .str "Unfused ES"
  else v

/-- Drop the derived `Block_ID` column from a cleaned row (the stripping
step of the idempotence property). -/
def stripRow (r : CRow) : RRow :=
  ⟨r.type_, r.area, r.mean, r.intden, r.label⟩

/-- Overwrite the `Block_ID` of a cleaned row. -/
def setBlock1 (r : CRow) : CRow :=
  { r with blockId := 1 }

/-- Two-block raw table: type codes `1, 2, 4, 1, 4`. -/
def exRaw1 : List RRow :=
  [⟨.num 1, 10, 2, 20, none⟩, ⟨.num 2, 5, 10, 50, none⟩,
   ⟨.num 4, 3, 6, 18, none⟩, ⟨.num 1, 9, 1, 9, none⟩,
   ⟨.num 4, 2, 4, 8, none⟩]

/-- The spec's single-block scenario, after cleaning. -/
def exClean2 : List CRow :=
  [⟨1, .str "Background", 10, 2, 20, none⟩, ⟨1, .str "ES", 5, 10, 50, none⟩,
   ⟨1, .str "MEF", 4, 8, 32, none⟩, ⟨1, .str "Unfused ES", 3, 6, 18, none⟩]

/-- Raw table whose second row has `Area = 0` and `IntDen = 50`. -/
def exRaw3 : List RRow :=
  [⟨.num 1, 10, 2, 20, none⟩, ⟨.num 2, 0, 5, 50, none⟩]

/-- Cleaned output of `exRaw3`: the zero-area ES row gets
`Corrected Integrated Density = 50` and `Corrected Mean = +inf`. -/
def exMain3 : List MRow :=
  [⟨1, .str "Background", 10, 2, 20, none, .nan, none⟩,
   ⟨1, .str "ES", 0, 5, 50, some 50, .inf true, none⟩]

/-- Row with a zero `Area` and a finite corrected integrated density. -/
def exD3 : List DRow := [⟨1, .str "ES", 0, 5, 50, some 50, none⟩]

/-- Cleaned table with two blocks where block 2 holds only its
Background row. -/
def exMain4 : List MRow :=
  [⟨1, .str "Background", 10, 2, 20, none, .nan, none⟩,
   ⟨1, .str "Unfused ES", 3, 6, 18, some 12, .fin 4, none⟩,
   ⟨2, .str "Background", 8, 3, 24, none, .nan, none⟩]

/-- Raw table with type codes `2, 3, 4` and no Background row. -/
def exRaw5 : List RRow :=
  [⟨.num 2, 5, 10, 50, none⟩, ⟨.num 3, 4, 8, 32, none⟩,
   ⟨.num 4, 3, 6, 18, none⟩]

/-- Cleaned output of `exRaw5`: one block, no Background row, so every
corrected value is null. -/
def exMain5 : List MRow :=
  [⟨1, .str "ES", 5, 10, 50, none, .nan, none⟩,
   ⟨1, .str "MEF", 4, 8, 32, none, .nan, none⟩,
   ⟨1, .str "Unfused ES", 3, 6, 18, none, .nan, none⟩]

/-- Feature row computed for `exMain5`: the all-null corrected densities
sum to `0`, not null. -/
def exFRow5 : FRow :=
  ⟨1, .nan, .nan, .nan, .nan, .nan, .nan, .fin 9, .fin 0, .nan, .nan⟩

/-- Two complete blocks: type codes `1, 4, 1, 4`. -/
def exRaw7 : List RRow :=
  [⟨.num 1, 10, 2, 20, none⟩, ⟨.num 4, 3, 6, 18, none⟩,
   ⟨.num 1, 9, 1, 9, none⟩, ⟨.num 4, 2, 4, 8, none⟩]

/-- Raw column list with a `Label` column. -/
def exCols : List String := ["Type", "Area", "Mean", "IntDen", "Label"]

/-- Raw column list without a `Label` column. -/
def exColsNoLabel : List String := ["Type", "Area", "Mean", "IntDen"]

/-- Registry state holding one registered feature. -/
def exReg : RegState String := ⟨[[("Total Area", "calc_total_area")]]⟩

/-! ## Helper lemmas -/

theorem getD_set_ne {α : Type} (l : List α) (i j : Nat) (a d : α) (h : j ≠ i) :
    (l.set i a).getD j d = l.getD j d := by
  simp only [List.getD, List.get?_eq_getElem?]
  rw [List.getElem?_set_ne (fun he => h he.symm)]

theorem getD_append_length {α : Type} (l : List α) (x d : α) :
    (l ++ [x]).getD l.length d = x := by
  simp [List.getD_eq_getElem?_getD, List.getElem?_append_right]

theorem getD_map_lt {α β : Type} (f : α → β) :
    ∀ (l : List α) (n : Nat), n < l.length → ∀ (d : α) (d' : β),
      (l.map f).getD n d' = f (l.getD n d)
  | a :: l, 0, _, d, d' => rfl
  | a :: l, n + 1, h, d, d' => by
      simpa using getD_map_lt f l n (by simpa using h) d d'

theorem filter_singleton_find? {α : Type} (p : α → Bool) :
    ∀ (l : List α) (x : α), l.filter p = [x] → l.find? p = some x := by
  intro l
  induction l with
  | nil => intro x hx; simp at hx
  | cons a l ih =>
    intro x hx
    by_cases hp : p a
    · rw [List.filter_cons_of_pos hp] at hx
      rw [List.find?_cons_of_pos _ hp]
      exact congrArg some (List.cons.injEq .. ▸ hx).1
    · rw [List.filter_cons_of_neg hp] at hx
      rw [List.find?_cons_of_neg _ hp]
      exact ih x hx

theorem filter_nil_find? {α : Type} (p : α → Bool) (l : List α)
    (h : l.filter p = []) : l.find? p = none := by
  rw [List.find?_eq_none]
  intro a ha
  exact (List.filter_eq_nil_iff.mp h) a ha

theorem fAdd_nan_right (v : FVal) : fAdd v .nan = .nan := by
  cases v <;> rfl

theorem fDiv_nan_left (v : FVal) : fDiv .nan v = .nan := by
  cases v <;> rfl

theorem sumCids_all_none :
    ∀ (l : List MRow), (∀ r ∈ l, r.cid = none) → sumCids l = 0 := by
  intro l
  induction l with
  | nil => intro _; rfl
  | cons a l ih =>
    intro h
    have ha := h a (by simp)
    have hl := ih (fun r hr => h r (by simp [hr]))
    simp [sumCids] at hl ⊢
    simp [ha, hl]

theorem blockIdsAux_length :
    ∀ (ts : List CellVal) (prev : CellVal) (b : Nat),
      (blockIdsAux prev b ts).length = ts.length
  | [], _, _ => rfl
  | t :: ts, prev, b => by
      simp [blockIdsAux, blockIdsAux_length ts]

theorem addBlockAux_map_blockId :
    ∀ (rs : List RRow) (prev : CellVal) (b : Nat),
      (addBlockAux prev b rs).map (·.blockId) = blockIdsAux prev b (rs.map (·.type_))
  | [], _, _ => rfl
  | r :: rs, prev, b => by
      simp only [addBlockAux, blockIdsAux, List.map_cons]
      exact congrArg _ (addBlockAux_map_blockId rs r.type_ _)

theorem blockIdsOf_add_block_id (raws : List RRow) :
    blockIdsOf (_add_block_id raws) = addBlockIdsPure (typesOf raws) := by
  cases raws with
  | nil => rfl
  | cons r rs =>
    simp only [blockIdsOf, typesOf, _add_block_id, addBlockIdsPure, List.map_cons]
    exact congrArg _ (addBlockAux_map_blockId rs r.type_ 1)

theorem blockIdsAux_getD_step :
    ∀ (ts : List CellVal) (i : Nat) (t : CellVal) (b : Nat),
      i + 1 < ts.length + 1 →
      (b :: blockIdsAux t b ts).getD (i + 1) 0 =
        if ((t :: ts).getD (i + 1) (.num 0)).eqNum 1
            && ((t :: ts).getD i (.num 0)).eqNum 4 then
          (b :: blockIdsAux t b ts).getD i 0 + 1
        else
          (b :: blockIdsAux t b ts).getD i 0 := by
  intro ts
  induction ts with
  | nil =>
    intro i t b h
    simp only [List.length_nil] at h
    omega
  | cons u us ih =>
    intro i t b h
    match i with
    | 0 => simp [blockIdsAux]
    | j + 1 =>
      have h' : j + 1 < us.length + 1 := by
        simpa using h
      have := ih j u (if u.eqNum 1 && t.eqNum 4 then b + 1 else b) h'
      simpa [blockIdsAux] using this

theorem blockIdsAux_toFinset :
    ∀ (ts : List CellVal) (t : CellVal) (b : Nat),
      (b :: blockIdsAux t b ts).toFinset = Finset.Icc b (b + countTransitions (t :: ts)) := by
  intro ts
  induction ts with
  | nil =>
    intro t b
    simp [blockIdsAux, countTransitions]
  | cons u us ih =>
    intro t b
    by_cases hc : (u.eqNum 1 && t.eqNum 4) = true
    · rw [show blockIdsAux t b (u :: us) = (b + 1) :: blockIdsAux u (b + 1) us by
        simp [blockIdsAux, hc]]
      rw [show countTransitions (t :: u :: us) = 1 + countTransitions (u :: us) by
        simp [countTransitions, hc]]
      rw [List.toFinset_cons, ih u (b + 1)]
      ext x
      simp only [Finset.mem_insert, Finset.mem_Icc]
      omega
    · rw [show blockIdsAux t b (u :: us) = b :: blockIdsAux u b us by
        simp [blockIdsAux, hc]]
      rw [show countTransitions (t :: u :: us) = 0 + countTransitions (u :: us) by
        simp [countTransitions, hc]]
      rw [List.toFinset_cons, ih u b]
      ext x
      simp only [Finset.mem_insert, Finset.mem_Icc]
      omega

theorem renameVal_eq_spec (v : CellVal) : renameVal v = typeLabelSpec v := by
  cases v with
  | str s => simp [renameVal, typeLabelSpec, CellVal.eqNum]
  | num q =>
    by_cases h1 : q = 1
    · simp [renameVal, typeLabelSpec, CellVal.eqNum, h1]
    · by_cases h2 : q = 2
      · simp [renameVal, typeLabelSpec, CellVal.eqNum, h1, h2]
      · by_cases h3 : q = 3
        · simp [renameVal, typeLabelSpec, CellVal.eqNum, h1, h2, h3]
        · by_cases h4 : q = 4
          · simp [renameVal, typeLabelSpec, CellVal.eqNum, h1, h2, h3, h4]
          · simp [renameVal, typeLabelSpec, CellVal.eqNum, h1, h2, h3, h4]

theorem renameVal_not_one (v : CellVal) : (renameVal v).eqNum 1 = false := by
  rw [renameVal_eq_spec]
  cases v with
  | str s => simp [typeLabelSpec, CellVal.eqNum]
  | num q =>
    by_cases h1 : q = 1
    · simp [typeLabelSpec, CellVal.eqNum, h1]
    · by_cases h2 : q = 2
      · simp [typeLabelSpec, CellVal.eqNum, h1, h2]
      · by_cases h3 : q = 3
        · simp [typeLabelSpec, CellVal.eqNum, h1, h2, h3]
        · by_cases h4 : q = 4
          · simp [typeLabelSpec, CellVal.eqNum, h1, h2, h3, h4]
          · simp [typeLabelSpec, CellVal.eqNum, h1, h2, h3, h4]

theorem renameVal_idem (v : CellVal) : renameVal (renameVal v) = renameVal v := by
  rw [renameVal_eq_spec, renameVal_eq_spec]
  cases v with
  | str s => simp [typeLabelSpec, CellVal.eqNum]
  | num q =>
    by_cases h1 : q = 1
    · simp [typeLabelSpec, CellVal.eqNum, h1]
    · by_cases h2 : q = 2
      · simp [typeLabelSpec, CellVal.eqNum, h1, h2]
      · by_cases h3 : q = 3
        · simp [typeLabelSpec, CellVal.eqNum, h1, h2, h3]
        · by_cases h4 : q = 4
          · simp [typeLabelSpec, CellVal.eqNum, h1, h2, h3, h4]
          · simp [typeLabelSpec, CellVal.eqNum, h1, h2, h3, h4]

theorem addBlockAux_all_not_one :
    ∀ (rs : List RRow) (prev : CellVal) (b : Nat),
      (∀ r ∈ rs, r.type_.eqNum 1 = false) →
      addBlockAux prev b rs =
        rs.map (fun r => ⟨b, r.type_, r.area, r.mean, r.intden, r.label⟩) := by
  intro rs
  induction rs with
  | nil => intro prev b _; rfl
  | cons r rs ih =>
    intro prev b h
    have hr := h r (by simp)
    simp only [addBlockAux, hr, Bool.false_and, if_false, List.map_cons, Bool.false_eq_true]
    rw [ih r.type_ b (fun x hx => h x (by simp [hx]))]

theorem map_setBlock1_eq_iff :
    ∀ (l : List CRow), l.map setBlock1 = l ↔ ∀ r ∈ l, r.blockId = 1 := by
  intro l
  induction l with
  | nil => simp
  | cons a l ih =>
    simp only [List.map_cons, List.cons.injEq, ih, List.mem_cons]
    constructor
    · rintro ⟨h1, h2⟩ r hr
      rcases hr with rfl | hr
      · rw [← h1]; rfl
      · exact h2 r hr
    · intro h
      refine ⟨?_, fun r hr => h r (Or.inr hr)⟩
      have := h a (Or.inl rfl)
      cases a
      simp_all [setBlock1]

theorem nodup_map_iff_subcount {α β : Type} [DecidableEq β] (f : α → β) :
    ∀ l : List α, (l.map f).Nodup ↔
      ∀ y : β, (l.filter (fun x => decide (f x = y))).length ≤ 1 := by
  intro l
  induction l with
  | nil => simp
  | cons a l ih =>
    simp only [List.map_cons, List.nodup_cons, List.mem_map, ih]
    constructor
    · rintro ⟨hna, hb⟩ y
      by_cases hy : f a = y
      · have hemp : l.filter (fun x => decide (f x = y)) = [] := by
          rw [List.filter_eq_nil_iff]
          intro x hx hfx
          exact hna ⟨x, hx, by rw [decide_eq_true_eq] at hfx; rw [hfx, hy]⟩
        rw [List.filter_cons_of_pos (by simp [hy]), hemp]
        simp
      · rw [List.filter_cons_of_neg (by simp [hy])]
        exact hb y
    · intro h
      constructor
      · rintro ⟨x, hx, hfx⟩
        have h2 := h (f a)
        rw [List.filter_cons_of_pos (by simp)] at h2
        have hxin : x ∈ l.filter (fun z => decide (f z = f a)) :=
          List.mem_filter.mpr ⟨hx, by simp [hfx]⟩
        have : 0 < (l.filter (fun z => decide (f z = f a))).length :=
          List.length_pos.mpr (fun he => by simp [he] at hxin)
        simp only [List.length_cons] at h2
        omega
      · intro y
        have hy := h y
        by_cases hc : f a = y
        · rw [List.filter_cons_of_pos (by simp [hc])] at hy
          simp only [List.length_cons] at hy
          omega
        · rwa [List.filter_cons_of_neg (by simp [hc])] at hy

/-! ## Claim theorems -/

/-- C1: for every non-empty sequence of non-blank rows with numeric
`Type` codes, `_add_block_id` gives the first row `Block_ID` 1; a
subsequent row's `Block_ID` is one greater than the previous row's iff
its `Type` equals 1 and the previous row's `Type` equals 4 (otherwise it
is equal); and the number of distinct `Block_ID` values equals the
number of `4` immediately-followed-by-`1` transitions plus one. -/
theorem block_segmentation_spec (raws : List RRow) (hne : raws ≠ [])
    (hnum : ∀ r ∈ raws, r.type_.isNum = true) :
    (blockIdsOf (_add_block_id raws)).length = raws.length ∧
    (blockIdsOf (_add_block_id raws)).getD 0 0 = 1 ∧
    (∀ i : Nat, i + 1 < raws.length →
      (blockIdsOf (_add_block_id raws)).getD (i + 1) 0 =
        if ((typesOf raws).getD (i + 1) (.num 0)).eqNum 1
            && ((typesOf raws).getD i (.num 0)).eqNum 4 then
          (blockIdsOf (_add_block_id raws)).getD i 0 + 1
        else
          (blockIdsOf (_add_block_id raws)).getD i 0) ∧
    (blockIdsOf (_add_block_id raws)).toFinset.card =
      countTransitions (typesOf raws) + 1 := by
  rw [blockIdsOf_add_block_id]
  match raws, hne with
  | r :: rs, _ =>
    have hts : typesOf (r :: rs) = r.type_ :: typesOf rs := rfl
    refine ⟨?_, rfl, ?_, ?_⟩
    · simp [addBlockIdsPure, hts, blockIdsAux_length, typesOf]
    · intro i hi
      rw [hts]
      exact blockIdsAux_getD_step (typesOf rs) i r.type_ 1
        (by simpa [typesOf] using hi)
    · rw [hts]
      show (1 :: blockIdsAux r.type_ 1 (typesOf rs)).toFinset.card = _
      rw [blockIdsAux_toFinset, Nat.card_Icc]
      omega

/-- C1 witness: the theorem applied to the concrete two-block table
`exRaw1` (type codes 1, 2, 4, 1, 4). -/
theorem block_segmentation_spec_witness :
    (exRaw1 ≠ [] ∧ ∀ r ∈ exRaw1, r.type_.isNum = true) ∧
    ((blockIdsOf (_add_block_id exRaw1)).length = exRaw1.length ∧
     (blockIdsOf (_add_block_id exRaw1)).getD 0 0 = 1 ∧
     (∀ i : Nat, i + 1 < exRaw1.length →
       (blockIdsOf (_add_block_id exRaw1)).getD (i + 1) 0 =
         if ((typesOf exRaw1).getD (i + 1) (.num 0)).eqNum 1
             && ((typesOf exRaw1).getD i (.num 0)).eqNum 4 then
           (blockIdsOf (_add_block_id exRaw1)).getD i 0 + 1
         else
           (blockIdsOf (_add_block_id exRaw1)).getD i 0) ∧
     (blockIdsOf (_add_block_id exRaw1)).toFinset.card =
       countTransitions (typesOf exRaw1) + 1) :=
  ⟨⟨by decide, by decide⟩, block_segmentation_spec exRaw1 (by decide) (by decide)⟩

/-- C8: `_rename_type_values` maps every row's `Type` by exactly the
table 1→Background, 2→ES, 3→MEF, 4→Unfused ES, passes any other value
through unchanged, touches no other column, and never fails. -/
theorem rename_type_values_spec (rows : List CRow) :
    _rename_type_values rows =
      rows.map (fun r => { r with type_ := typeLabelSpec r.type_ }) := by
  unfold _rename_type_values
  exact List.map_congr_left (fun r _ => by rw [renameVal_eq_spec])

/-- C2: under the success precondition that no block holds two
Background rows, the corrector returns a table of the same length in
which a Background row's corrected density is null; a row whose block
holds exactly one Background row `rb` gets `IntDen - Area * rb.Mean`
unless it is the Background row itself; and a row whose block holds no
Background row gets null corrected values (density and mean), with no
exception raised. -/
theorem background_correction_spec (rows : List CRow)
    (hnd : ((bgSeries rows).map Prod.fst).Nodup) :
    ∃ out : List DRow,
      _calc_corrected_integrated_density rows = .ok out ∧
      out.length = rows.length ∧
      ∀ i : Nat, i < rows.length →
        ((rows.getD i dCRow).type_ = CellVal.str "Background" →
            (out.getD i dDRow).cid = none) ∧
        (∀ rb : CRow,
            rows.filter (fun x =>
                decide (x.blockId = (rows.getD i dCRow).blockId) && isBg x) = [rb] →
            (rows.getD i dCRow).type_ ≠ CellVal.str "Background" →
            (out.getD i dDRow).cid =
              some ((rows.getD i dCRow).intden - (rows.getD i dCRow).area * rb.mean)) ∧
        (rows.filter (fun x =>
              decide (x.blockId = (rows.getD i dCRow).blockId) && isBg x) = [] →
            (out.getD i dDRow).cid = none ∧
            ((_calc_corrected_mean out).getD i dMRow).cmean = FVal.nan) := by
  refine ⟨rows.map (fun r =>
      { blockId := r.blockId, type_ := r.type_, area := r.area, mean := r.mean,
        intden := r.intden,
        cid := if r.type_ = CellVal.str "Background" then none
               else (seriesLookup (bgSeries rows) r.blockId).map
                      (fun m => r.intden - r.area * m),
        label := r.label }), ?_, by simp, ?_⟩
  · simp only [_calc_corrected_integrated_density]
    rw [if_pos hnd]
  · intro i hi
    have hmap := getD_map_lt (fun r : CRow =>
      ({ blockId := r.blockId, type_ := r.type_, area := r.area, mean := r.mean,
         intden := r.intden,
         cid := if r.type_ = CellVal.str "Background" then none
                else (seriesLookup (bgSeries rows) r.blockId).map
                       (fun m => r.intden - r.area * m),
         label := r.label } : DRow)) rows i hi dCRow dDRow
    refine ⟨?_, ?_, ?_⟩
    · intro hbg
      rw [hmap]
      dsimp only
      rw [if_pos hbg]
    · intro rb hfil hnbg
      rw [hmap]
      have h1 : (rows.filter isBg).filter
          (fun x => decide (x.blockId = (rows.getD i dCRow).blockId)) = [rb] := by
        rw [List.filter_filter]
        exact hfil
      have h2 := filter_singleton_find? _ _ rb h1
      have h3 : seriesLookup (bgSeries rows) (rows.getD i dCRow).blockId = some rb.mean := by
        unfold seriesLookup bgSeries
        rw [List.find?_map]
        show (((rows.filter isBg).find?
            (fun x => decide (x.blockId = (rows.getD i dCRow).blockId))).map
            (fun x => (x.blockId, x.mean))).map Prod.snd = some rb.mean
        rw [h2]
        rfl
      dsimp only
      rw [if_neg hnbg, h3]
      rfl
    · intro hfil
      have h1 : (rows.filter isBg).filter
          (fun x => decide (x.blockId = (rows.getD i dCRow).blockId)) = [] := by
        rw [List.filter_filter]
        exact hfil
      have h2 := filter_nil_find? _ _ h1
      have h3 : seriesLookup (bgSeries rows) (rows.getD i dCRow).blockId = none := by
        unfold seriesLookup bgSeries
        rw [List.find?_map]
        show (((rows.filter isBg).find?
            (fun x => decide (x.blockId = (rows.getD i dCRow).blockId))).map
            (fun x => (x.blockId, x.mean))).map Prod.snd = none
        rw [h2]
        rfl
      have hcid : ((rows.map (fun r =>
          ({ blockId := r.blockId, type_ := r.type_, area := r.area, mean := r.mean,
             intden := r.intden,
             cid := if r.type_ = CellVal.str "Background" then none
                    else (seriesLookup (bgSeries rows) r.blockId).map
                           (fun m => r.intden - r.area * m),
             label := r.label } : DRow))).getD i dDRow).cid = none := by
        rw [hmap]
        dsimp only
        rw [h3]
        simp
      refine ⟨hcid, ?_⟩
      have hlen : i < (rows.map (fun r =>
          ({ blockId := r.blockId, type_ := r.type_, area := r.area, mean := r.mean,
             intden := r.intden,
             cid := if r.type_ = CellVal.str "Background" then none
                    else (seriesLookup (bgSeries rows) r.blockId).map
                           (fun m => r.intden - r.area * m),
             label := r.label } : DRow))).length := by
        simpa using hi
      rw [show _calc_corrected_mean = fun rows : List DRow => rows.map (fun r =>
          ({ blockId := r.blockId, type_ := r.type_, area := r.area, mean := r.mean,
             intden := r.intden, cid := r.cid,
             cmean := fDiv (optF r.cid) (.fin r.area),
             label := r.label } : MRow)) from rfl]
      rw [getD_map_lt _ _ i hlen dDRow dMRow]
      show fDiv (optF _) _ = FVal.nan
      rw [hcid]
      exact fDiv_nan_left _

/-- C2 witness: the theorem applied to the cleaned single-block scenario
table `exClean2`. -/
theorem background_correction_spec_witness :
    ((bgSeries exClean2).map Prod.fst).Nodup ∧
    (∃ out : List DRow,
      _calc_corrected_integrated_density exClean2 = .ok out ∧
      out.length = exClean2.length ∧
      ∀ i : Nat, i < exClean2.length →
        ((exClean2.getD i dCRow).type_ = CellVal.str "Background" →
            (out.getD i dDRow).cid = none) ∧
        (∀ rb : CRow,
            exClean2.filter (fun x =>
                decide (x.blockId = (exClean2.getD i dCRow).blockId) && isBg x) = [rb] →
            (exClean2.getD i dCRow).type_ ≠ CellVal.str "Background" →
            (out.getD i dDRow).cid =
              some ((exClean2.getD i dCRow).intden -
                (exClean2.getD i dCRow).area * rb.mean)) ∧
        (exClean2.filter (fun x =>
              decide (x.blockId = (exClean2.getD i dCRow).blockId) && isBg x) = [] →
            (out.getD i dDRow).cid = none ∧
            ((_calc_corrected_mean out).getD i dMRow).cmean = FVal.nan)) :=
  ⟨by decide, background_correction_spec exClean2 (by decide)⟩

theorem fDiv_fin_fin (a b : ℚ) :
    fDiv (.fin a) (.fin b) =
      if b = 0 then (if a = 0 then .nan else .inf (decide (0 < a)))
      else .fin (a / b) := rfl

/-- C3 counterexample: on the raw table `exRaw3` the cleaned ES row has
`Area = 0` and corrected integrated density `50`, and its Corrected Mean
is `+inf` — a non-null value — so "a row with Area equal to zero yields
a null Corrected Mean" is false on the code. -/
theorem corrected_mean_zero_area_counterexample :
    prepare_rows exRaw3 = .ok exMain3 ∧
    (exMain3.getD 1 dMRow).area = 0 ∧
    (exMain3.getD 1 dMRow).cmean = FVal.inf true ∧
    FVal.inf true ≠ FVal.nan := by
  refine ⟨?_, rfl, rfl, by decide⟩
  simp +decide only [prepare_rows, clean_data, _add_block_id, addBlockAux,
    _rename_type_values, renameVal, CellVal.eqNum,
    _calc_corrected_integrated_density, bgSeries, isBg, seriesLookup,
    _calc_corrected_mean, fDiv, optF, Except.map, exRaw3, exMain3,
    List.filter, List.find?, List.map, List.nodup_cons, List.nodup_nil,
    List.not_mem_nil, not_false_iff, and_true, true_and, if_true, if_false]
  norm_num

/-- C3 (amended): `Corrected Mean` equals
`Corrected Integrated Density / Area` for rows with non-zero `Area`;
a null corrected density propagates to a null `Corrected Mean`; and for
a zero-`Area` row the result is null only when the corrected density is
null or zero — a non-zero finite corrected density divided by zero
`Area` yields a signed infinity (no arithmetic fault, but not null). -/
theorem corrected_mean_spec (rows : List DRow) (i : Nat) (h : i < rows.length) :
    ((rows.getD i dDRow).cid = none →
        ((_calc_corrected_mean rows).getD i dMRow).cmean = FVal.nan) ∧
    (∀ q : ℚ, (rows.getD i dDRow).cid = some q → (rows.getD i dDRow).area ≠ 0 →
        ((_calc_corrected_mean rows).getD i dMRow).cmean =
          FVal.fin (q / (rows.getD i dDRow).area)) ∧
    ((rows.getD i dDRow).cid = some 0 → (rows.getD i dDRow).area = 0 →
        ((_calc_corrected_mean rows).getD i dMRow).cmean = FVal.nan) ∧
    (∀ q : ℚ, (rows.getD i dDRow).cid = some q → q ≠ 0 →
        (rows.getD i dDRow).area = 0 →
        ((_calc_corrected_mean rows).getD i dMRow).cmean =
          FVal.inf (decide (0 < q))) := by
  have hmap := getD_map_lt (fun r : DRow =>
      ({ blockId := r.blockId, type_ := r.type_, area := r.area, mean := r.mean,
         intden := r.intden, cid := r.cid,
         cmean := fDiv (optF r.cid) (.fin r.area),
         label := r.label } : MRow)) rows i h dDRow dMRow
  rw [show _calc_corrected_mean rows = rows.map (fun r =>
      ({ blockId := r.blockId, type_ := r.type_, area := r.area, mean := r.mean,
         intden := r.intden, cid := r.cid,
         cmean := fDiv (optF r.cid) (.fin r.area),
         label := r.label } : MRow)) from rfl]
  rw [hmap]
  dsimp only
  refine ⟨?_, ?_, ?_, ?_⟩
  · intro hc
    rw [hc]
    exact fDiv_nan_left _
  · intro q hc ha
    rw [hc]
    show fDiv (.fin q) (.fin (rows.getD i dDRow).area) = _
    rw [fDiv_fin_fin, if_neg ha]
  · intro hc ha
    rw [hc, ha]
    rfl
  · intro q hc hq ha
    rw [hc, ha]
    show fDiv (.fin q) (.fin 0) = _
    rw [fDiv_fin_fin, if_pos rfl, if_neg hq]

/-- C3 witness: the amended theorem applied to the one-row table `exD3`
(`Area = 0`, corrected density `50`), giving Corrected Mean `+inf`. -/
theorem corrected_mean_spec_witness :
    0 < exD3.length ∧
    ((_calc_corrected_mean exD3).getD 0 dMRow).cmean = FVal.inf (decide ((0:ℚ) < 50)) :=
  ⟨by decide,
    (corrected_mean_spec exD3 0 (by decide)).2.2.2 50 rfl (by decide) rfl⟩

/-- C6 counterexample: on a raw column list without `Label`, the reorder
step of `prepare_data` raises `KeyError` instead of cleaning the input
successfully. -/
theorem prepare_cols_missing_label_counterexample :
    prepare_cols exColsNoLabel = .error "KeyError" := rfl

/-- C6 (amended): when the raw input has a `Label` column (and none of
the derived column names), the prepared table has `Block_ID` first, the
original measurement columns and then the two derived columns in
between, and `Label` last; an input lacking `Label` instead raises
`KeyError` in the reorder step. -/
theorem prepare_cols_spec (rawCols : List String)
    (hL : "Label" ∈ rawCols) (hB : "Block_ID" ∉ rawCols)
    (hCid : "Corrected Integrated Density" ∉ rawCols)
    (hCm : "Corrected Mean" ∉ rawCols) :
    prepare_cols rawCols =
      .ok ("Block_ID" :: (rawCols.filter (fun c => decide (c ≠ "Label")) ++
        ["Corrected Integrated Density", "Corrected Mean", "Label"])) := by
  have hfL : ("Block_ID" :: rawCols ++
        ["Corrected Integrated Density", "Corrected Mean"]).filter
        (fun c => decide (c ≠ "Label")) =
      "Block_ID" :: (rawCols.filter (fun c => decide (c ≠ "Label")) ++
        ["Corrected Integrated Density", "Corrected Mean"]) := by
    simp +decide [List.filter_cons, List.filter_append]
  have hsub : ∀ c ∈ rawCols.filter (fun c => decide (c ≠ "Label")), c ∈ rawCols :=
    fun c hc => List.mem_of_mem_filter hc
  have h1 : selectCols ("Block_ID" :: rawCols ++
        ["Corrected Integrated Density", "Corrected Mean"])
      ((("Block_ID" :: rawCols ++
        ["Corrected Integrated Density", "Corrected Mean"]).filter
        (fun c => decide (c ≠ "Label"))) ++ ["Label"]) =
      .ok ((("Block_ID" :: rawCols ++
        ["Corrected Integrated Density", "Corrected Mean"]).filter
        (fun c => decide (c ≠ "Label"))) ++ ["Label"]) := by
    unfold selectCols
    rw [if_pos]
    rw [List.all_eq_true]
    intro c hc
    rw [decide_eq_true_eq]
    rcases List.mem_append.mp hc with hc | hc
    · exact List.mem_of_mem_filter hc
    · rw [List.mem_singleton.mp hc]
      exact List.mem_cons_of_mem _ (List.mem_append_left _ hL)
  have hraw : (rawCols.filter (fun c => decide (c ≠ "Label"))).filter
        (fun c => decide (c ≠ "Block_ID")) =
      rawCols.filter (fun c => decide (c ≠ "Label")) := by
    refine List.filter_eq_self.mpr (fun c hc => ?_)
    rw [decide_eq_true_eq]
    intro hcB
    exact hB (hcB ▸ hsub c hc)
  have hfB : ((("Block_ID" :: rawCols ++
        ["Corrected Integrated Density", "Corrected Mean"]).filter
        (fun c => decide (c ≠ "Label"))) ++ ["Label"]).filter
        (fun c => decide (c ≠ "Block_ID")) =
      rawCols.filter (fun c => decide (c ≠ "Label")) ++
        ["Corrected Integrated Density", "Corrected Mean", "Label"] := by
    rw [hfL]
    simp +decide [List.filter_cons, List.filter_append, hraw]
    refine List.filter_congr (fun a ha => ?_)
    have haB : ¬ a = "Block_ID" := fun h => hB (h ▸ ha)
    simp [haB]
  have h2 : selectCols ((("Block_ID" :: rawCols ++
        ["Corrected Integrated Density", "Corrected Mean"]).filter
        (fun c => decide (c ≠ "Label"))) ++ ["Label"])
      ("Block_ID" :: ((("Block_ID" :: rawCols ++
        ["Corrected Integrated Density", "Corrected Mean"]).filter
        (fun c => decide (c ≠ "Label"))) ++ ["Label"]).filter
        (fun c => decide (c ≠ "Block_ID"))) =
      .ok ("Block_ID" :: ((("Block_ID" :: rawCols ++
        ["Corrected Integrated Density", "Corrected Mean"]).filter
        (fun c => decide (c ≠ "Label"))) ++ ["Label"]).filter
        (fun c => decide (c ≠ "Block_ID"))) := by
    unfold selectCols
    rw [if_pos]
    rw [List.all_eq_true]
    intro c hc
    rw [decide_eq_true_eq]
    rcases List.mem_cons.mp hc with rfl | hc
    · rw [hfL]
      exact List.mem_cons_self _ _
    · exact List.mem_of_mem_filter hc
  show Except.bind _ _ = _
  rw [h1]
  show selectCols _ _ = _
  rw [h2, hfB]

/-- C6 witness: the amended theorem applied to the concrete column list
`exCols = [Type, Area, Mean, IntDen, Label]`. -/
theorem prepare_cols_spec_witness :
    ("Label" ∈ exCols ∧ "Block_ID" ∉ exCols) ∧
    prepare_cols exCols =
      .ok ("Block_ID" :: (exCols.filter (fun c => decide (c ≠ "Label")) ++
        ["Corrected Integrated Density", "Corrected Mean", "Label"])) :=
  ⟨⟨by decide, by decide⟩,
    prepare_cols_spec exCols (by decide) (by decide) (by decide) (by decide)⟩

/-- C7 counterexample: re-cleaning the cleaned two-block table `exRaw7`
(after stripping `Block_ID`) does not reproduce it — the second pass
assigns `Block_ID` 1 to every row, because the string `Type` labels
never compare equal to the numeric markers 1 and 4. -/
theorem clean_data_not_idempotent_counterexample :
    clean_data ((clean_data exRaw7).map stripRow) ≠ clean_data exRaw7 ∧
    blockIdsOf (clean_data exRaw7) = [1, 1, 2, 2] ∧
    blockIdsOf (clean_data ((clean_data exRaw7).map stripRow)) = [1, 1, 1, 1] := by
  refine ⟨?_, ?_, ?_⟩ <;>
    simp +decide [clean_data, _add_block_id, addBlockAux, _rename_type_values,
      renameVal, CellVal.eqNum, stripRow, blockIdsOf, exRaw7]

/-- C7 (amended): re-running the cleaning pipeline on its own output
(after stripping the derived `Block_ID` column) reproduces the `Type`
labels and every other column, but re-assigns `Block_ID` 1 to every row;
the cleaned table is reproduced exactly iff the first cleaning produced
a single block. -/
theorem clean_data_reclean_spec (raws : List RRow) :
    clean_data ((clean_data raws).map stripRow) =
      (clean_data raws).map setBlock1 ∧
    (clean_data ((clean_data raws).map stripRow) = clean_data raws ↔
      ∀ r ∈ clean_data raws, r.blockId = 1) := by
  have key : ∀ l : List CRow, (∀ r ∈ l, (r.type_.eqNum 1 = false) ∧
      renameVal r.type_ = r.type_) →
      clean_data (l.map stripRow) = l.map setBlock1 := by
    intro l hl
    have hadd : _add_block_id (l.map stripRow) =
        l.map (fun x => (⟨1, x.type_, x.area, x.mean, x.intden, x.label⟩ : CRow)) := by
      cases l with
      | nil => rfl
      | cons c l =>
        show (⟨1, (stripRow c).type_, (stripRow c).area, (stripRow c).mean,
            (stripRow c).intden, (stripRow c).label⟩ : CRow) ::
            addBlockAux (stripRow c).type_ 1 (l.map stripRow) = _
        rw [addBlockAux_all_not_one (l.map stripRow) (stripRow c).type_ 1
          (fun r hr => by
            obtain ⟨x, hx, rfl⟩ := List.mem_map.mp hr
            exact (hl x (by simp [hx])).1)]
        simp only [List.map_map, List.map_cons]
        rfl
    show _rename_type_values (_add_block_id (l.map stripRow)) = _
    rw [hadd]
    show (l.map _).map _ = _
    rw [List.map_map]
    refine List.map_congr_left (fun x hx => ?_)
    have h2 := (hl x hx).2
    show (⟨1, renameVal x.type_, x.area, x.mean, x.intden, x.label⟩ : CRow) = setBlock1 x
    rw [h2]
    rfl
  have hfix : ∀ r ∈ clean_data raws, (r.type_.eqNum 1 = false) ∧
      renameVal r.type_ = r.type_ := by
    intro r hr
    obtain ⟨x, _, rfl⟩ := List.mem_map.mp hr
    exact ⟨renameVal_not_one _, renameVal_idem _⟩
  have h1 := key (clean_data raws) hfix
  refine ⟨h1, ?_⟩
  rw [h1]
  exact map_setBlock1_eq_iff (clean_data raws)

/-- C4: on the cleaned table `exMain4`, whose block 2 holds only its
Background row, the per-block skeleton lists blocks 1 and 2, but the
feature table produced by `create_feature_dataframe` contains only
block 1 — the code merges the skeleton onto the pivot
(`pivoted_df.merge(feature_df, how="left")`), dropping every block that
has no non-Background row, contrary to the spec's every-block
guarantee. -/
theorem feature_rows_drop_background_only_block :
    featureSkeleton exMain4 = [1, 2] ∧
    (create_feature_rows exMain4).map (List.map FRow.blockId) = .ok [1] := by
  constructor
  · simp +decide [featureSkeleton, pdUnique, exMain4]
  · simp +decide [create_feature_rows, exMain4, notBg, pdUnique,
      List.insertionSort, List.orderedInsert, buildFeatureRow, Except.map]

/-- C9: `create_feature_dataframe` succeeds — returns a feature table
instead of raising — iff every block of the cleaned table contains at
most one row of each non-Background type; any duplicate
`(Block_ID, Type)` pair among non-Background rows makes the pivot raise
`ValueError`. -/
theorem pivot_duplicate_type_guard (main : List MRow) :
    (∃ out : List FRow, create_feature_rows main = .ok out) ↔
      (∀ b : Nat, ∀ t : CellVal, t ≠ CellVal.str "Background" →
        (main.filter (fun r =>
          decide (r.blockId = b) && decide (r.type_ = t))).length ≤ 1) := by
  have key : ∀ b : Nat, ∀ t : CellVal, t ≠ CellVal.str "Background" →
      main.filter (fun r => decide (r.blockId = b) && decide (r.type_ = t)) =
        (main.filter notBg).filter
          (fun x => decide ((x.blockId, x.type_) = (b, t))) := by
    intro b t ht
    rw [List.filter_filter]
    refine List.filter_congr (fun a _ => ?_)
    by_cases h1 : a.blockId = b
    · by_cases h2 : a.type_ = t
      · simp [h1, h2, notBg, Prod.ext_iff, ht]
      · simp [h1, h2, Prod.ext_iff]
    · simp [h1, Prod.ext_iff]
  constructor
  · rintro ⟨out, hout⟩ b t ht
    have hnd : ((main.filter notBg).map (fun r => (r.blockId, r.type_))).Nodup := by
      by_contra hc
      simp only [create_feature_rows] at hout
      rw [if_neg hc] at hout
      exact Except.noConfusion hout
    rw [key b t ht]
    exact (nodup_map_iff_subcount _ _).mp hnd (b, t)
  · intro h
    have hnd : ((main.filter notBg).map (fun r => (r.blockId, r.type_))).Nodup := by
      rw [nodup_map_iff_subcount]
      rintro ⟨b, t⟩
      by_cases ht : t = CellVal.str "Background"
      · subst ht
        have hnil : (main.filter notBg).filter
            (fun x => decide ((x.blockId, x.type_) = (b, CellVal.str "Background"))) = [] := by
          rw [List.filter_eq_nil_iff]
          intro a ha
          have hbg : notBg a = true := List.of_mem_filter ha
          simp only [notBg, Bool.not_eq_true', decide_eq_false_iff_not] at hbg
          simp [Prod.ext_iff]
          intro _
          exact hbg
        rw [hnil]
        simp
      · rw [← key b t ht]
        exact h b t ht
    exact ⟨_, by simp only [create_feature_rows]; rw [if_pos hnd]⟩

theorem exMain5_feature_rows : create_feature_rows exMain5 = .ok [exFRow5] := by
  simp +decide [create_feature_rows, exMain5, notBg, pdUnique,
    List.insertionSort, List.orderedInsert, buildFeatureRow, typedLookup,
    calc_total_area, calc_total_oct4, calc_mean_oct4, cmOf, unfusedCid,
    esmefRows, sumAreas, sumCids, fAdd, fDiv, optF, exFRow5]
  norm_num

/-- C5 (amended): in a feature table successfully produced by
`create_feature_dataframe`, a block with no MEF row gets a null
`Mean Oct4 Concentration Ratio in HETS:Single` cell, and a block with no
ES and no MEF row gets null sum-feature cells (null propagates, nothing
raises); but a block that does have ES/MEF rows whose
`Corrected Integrated Density` values are all null gets `0` — not
null — for `Total Oct4 in Heterokaryon (CID)`, because the pandas
groupby sum skips NaN and sums an all-NaN group to zero. -/
theorem feature_missing_value_prop (main : List MRow) (out : List FRow)
    (hok : create_feature_rows main = .ok out) (f : FRow) (hf : f ∈ out) :
    ((main.filter (fun r => decide (r.blockId = f.blockId) &&
        decide (r.type_ = CellVal.str "MEF"))) = [] → f.meanOct4 = FVal.nan) ∧
    (esmefRows main f.blockId = [] →
        f.totalOct4 = FVal.nan ∧ f.totalArea = FVal.nan) ∧
    (esmefRows main f.blockId ≠ [] →
        (∀ r ∈ esmefRows main f.blockId, r.cid = none) →
        f.totalOct4 = FVal.fin 0) := by
  have hnd : ((main.filter notBg).map (fun r => (r.blockId, r.type_))).Nodup := by
    by_contra hc
    simp only [create_feature_rows] at hok
    rw [if_neg hc] at hok
    exact Except.noConfusion hok
  have hout : out = (List.insertionSort (· ≤ ·)
      (pdUnique ((main.filter notBg).map (·.blockId)))).map
      (buildFeatureRow (main.filter notBg) main) := by
    simp only [create_feature_rows] at hok
    rw [if_pos hnd] at hok
    exact (Except.ok.inj hok).symm
  rw [hout] at hf
  obtain ⟨b, _, rfl⟩ := List.mem_map.mp hf
  have hb : (buildFeatureRow (main.filter notBg) main b).blockId = b := rfl
  refine ⟨?_, ?_, ?_⟩
  · intro hm
    show calc_mean_oct4 main b = FVal.nan
    have hmef : cmOf main "MEF" b = FVal.nan := by
      have hm2 : (main.filter (fun r =>
          decide (r.type_ = CellVal.str "MEF"))).filter
          (fun r => decide (r.blockId = b)) = [] := by
        rw [List.filter_filter]
        exact hm
      unfold cmOf typedLookup
      rw [filter_nil_find? _ _ hm2]
    unfold calc_mean_oct4
    rw [hmef, fAdd_nan_right, fDiv_nan_left]
  · intro he
    rw [hb] at he
    constructor
    · show calc_total_oct4 main b = FVal.nan
      simp only [calc_total_oct4]
      rw [if_pos he]
    · show calc_total_area main b = FVal.nan
      simp only [calc_total_area]
      rw [if_pos he]
  · intro hne hall
    rw [hb] at hne hall
    show calc_total_oct4 main b = FVal.fin 0
    simp only [calc_total_oct4]
    rw [if_neg hne, sumCids_all_none _ hall]

/-- C5 witness: the amended theorem applied to the cleaned no-Background
table `exMain5`, whose single block has ES and MEF rows with all-null
corrected densities and `Total Oct4` cell `0`. -/
theorem feature_missing_value_prop_witness :
    create_feature_rows exMain5 = .ok [exFRow5] ∧ exFRow5.totalOct4 = FVal.fin 0 := by
  refine ⟨exMain5_feature_rows,
    (feature_missing_value_prop exMain5 [exFRow5] exMain5_feature_rows exFRow5
      (by simp)).2.2 ?_ ?_⟩
  · simp +decide [esmefRows, exMain5, exFRow5]
  · simp +decide [esmefRows, exMain5, exFRow5]

/-- C5 counterexample: `exMain5` is the cleaned output of the raw table
`exRaw5`; its only block has ES and MEF rows whose corrected densities
are all null, yet the dependent `Total Oct4 in Heterokaryon (CID)` cell
is `0`, not null — the feature computation substitutes zero for the
missing values. -/
theorem feature_zero_for_all_null_counterexample :
    prepare_rows exRaw5 = .ok exMain5 ∧
    create_feature_rows exMain5 = .ok [exFRow5] ∧
    (esmefRows exMain5 1).map MRow.cid = [none, none] ∧
    exFRow5.totalOct4 = FVal.fin 0 ∧ FVal.fin 0 ≠ FVal.nan := by
  refine ⟨?_, exMain5_feature_rows, ?_, rfl, by decide⟩
  · simp +decide [prepare_rows, clean_data, _add_block_id, addBlockAux,
      _rename_type_values, renameVal, CellVal.eqNum,
      _calc_corrected_integrated_density, bgSeries, isBg, seriesLookup,
      _calc_corrected_mean, fDiv, optF, Except.map, exRaw5, exMain5]
  · simp +decide [esmefRows, exMain5]

theorem getD_append_lt {α : Type} :
    ∀ (l l' : List α) (n : Nat) (d : α), n < l.length →
      (l ++ l').getD n d = l.getD n d
  | a :: l, l', 0, d, _ => rfl
  | a :: l, l', n + 1, d, h =>
      by simpa using getD_append_lt l l' n d (by simpa using h)

theorem dictInsert_keys_of_mem {α : Type} (k : String) (v : α) :
    ∀ d : List (String × α), k ∈ d.map Prod.fst →
      (dictInsert d k v).map Prod.fst = d.map Prod.fst := by
  intro d
  induction d with
  | nil => simp
  | cons p d ih =>
    intro hk
    by_cases hp : p.1 = k
    · simp [dictInsert, hp]
    · have hk' : k ∈ d.map Prod.fst := by
        rcases List.mem_cons.mp hk with h | h
        · exact absurd h.symm hp
        · exact h
      simp [dictInsert, hp, ih hk']

theorem dictInsert_mem_of_ne {α : Type} (k : String) (v : α) :
    ∀ d : List (String × α), ∀ p ∈ d, p.1 ≠ k → p ∈ dictInsert d k v := by
  intro d
  induction d with
  | nil => simp
  | cons q d ih =>
    intro p hp hpk
    by_cases hq : q.1 = k
    · rcases List.mem_cons.mp hp with rfl | hp
      · exact absurd hq hpk
      · simp [dictInsert, hq, hp]
    · rcases List.mem_cons.mp hp with rfl | hp
      · simp [dictInsert, hq]
      · simp [dictInsert, hq, ih p hp hpk]

theorem dictInsert_of_not_mem {α : Type} (k : String) (v : α) :
    ∀ d : List (String × α), k ∉ d.map Prod.fst →
      dictInsert d k v = d ++ [(k, v)] := by
  intro d
  induction d with
  | nil => simp [dictInsert]
  | cons q d ih =>
    intro hk
    have hq : ¬ q.1 = k := fun h => hk (by simp [h])
    have hk' : k ∉ d.map Prod.fst := fun h => hk (by simp [h])
    simp [dictInsert, hq, ih hk']

theorem dictGet_dictInsert {α : Type} (k : String) (v : α) :
    ∀ d : List (String × α), dictGet (dictInsert d k v) k = some v := by
  intro d
  induction d with
  | nil => simp [dictInsert, dictGet]
  | cons q d ih =>
    by_cases hq : q.1 = k
    · simp [dictInsert, hq, dictGet]
    · simp [dictInsert, hq, dictGet, List.find?_cons,
        show decide (q.1 = k) = false from by simp [hq]]
      simpa [dictGet] using ih

/-- C10: `get_all_features` hands back a copy of the registry:
the returned dict equals the registry's current contents; mutating the
returned dict never changes the registry; registering a feature after
the call never changes the previously returned dict; and re-registering
an existing name replaces that entry's value in place, keeping the key
order, every other entry, and appending only genuinely new names. -/
theorem registry_isolation {α : Type} (s : RegState α) (hne : s.heap ≠ [])
    (k : String) (v : α) :
    (readDict (get_all_features s).1 (get_all_features s).2 = readDict s 0) ∧
    (readDict (mutateDict (get_all_features s).1 (get_all_features s).2 k v) 0 =
      readDict s 0) ∧
    (readDict (register_feature (get_all_features s).1 k v) (get_all_features s).2 =
      readDict (get_all_features s).1 (get_all_features s).2) ∧
    (∀ d : List (String × α), k ∈ d.map Prod.fst →
      (dictInsert d k v).map Prod.fst = d.map Prod.fst) ∧
    (∀ d : List (String × α), ∀ p ∈ d, p.1 ≠ k → p ∈ dictInsert d k v) ∧
    (∀ d : List (String × α), k ∉ d.map Prod.fst →
      dictInsert d k v = d ++ [(k, v)]) ∧
    (∀ d : List (String × α), dictGet (dictInsert d k v) k = some v) := by
  have hlen : 0 < s.heap.length := List.length_pos.mpr hne
  have hcopy : readDict (get_all_features s).1 (get_all_features s).2 =
      readDict s 0 := by
    show (s.heap ++ [readDict s 0]).getD s.heap.length [] = readDict s 0
    exact getD_append_length s.heap (readDict s 0) []
  refine ⟨hcopy, ?_, ?_, dictInsert_keys_of_mem k v, dictInsert_mem_of_ne k v,
    dictInsert_of_not_mem k v, dictGet_dictInsert k v⟩
  · show (((s.heap ++ [readDict s 0]).set s.heap.length _).getD 0 []) = readDict s 0
    rw [getD_set_ne _ _ _ _ _ (by omega)]
    show (s.heap ++ [readDict s 0]).getD 0 [] = readDict s 0
    rw [getD_append_lt s.heap _ 0 [] hlen]
    rfl
  · show (((s.heap ++ [readDict s 0]).set 0 _).getD s.heap.length []) =
      readDict (get_all_features s).1 (get_all_features s).2
    rw [getD_set_ne _ _ _ _ _ (by omega)]
    rw [hcopy]
    exact getD_append_length s.heap (readDict s 0) []

/-- C10 witness: the theorem applied to the one-entry registry `exReg`,
re-registering the existing name `Total Area`. -/
theorem registry_isolation_witness :
    exReg.heap ≠ [] ∧
    readDict (mutateDict (get_all_features exReg).1 (get_all_features exReg).2
      "Total Area" "other") 0 = readDict exReg 0 :=
  ⟨by decide, (registry_isolation exReg (by decide) "Total Area" "other").2.1⟩
